import Mathlib

/-!
# Verification of the UTM hardware simulator firmware

Shallow embedding of `src/firmware/src/main.cpp` (the only source file of
the repository): an Arduino Due sketch that streams synthetic
floating-point readings over two serial ports, cycling through three
waveform patterns (sine, ramp, random walk).

Modelling conventions:

* The C++ `float` arithmetic of the sample generator is idealised as exact
  real arithmetic over `ℝ` (the spec states all value-level properties in
  terms of exact real formulas such as `50 + 45*sin(2π i/N)`).
* The Arduino library function `random(lo, hi)` is an external
  collaborator (not part of the repository).  Per the Arduino reference it
  returns a pseudo-random `long` in the half-open range `[lo, hi)` — the
  upper bound is *exclusive*.  We model each call's result as an integer
  parameter `d` (nondeterministic noise draw) and capture the attainable
  range by the `randomRange` finset below.
* `unsigned long` on the Due (32-bit ARM, SAM3X8E) is 32 bits wide;
  `testCount` arithmetic is therefore taken modulo `2^32` (`ULONG_MOD`).
* Output formatting (`Print::println(value, 6)`) is modelled separately
  over `ℚ`, because digit extraction must be executable; see the
  formatting section below.
-/

namespace UTM

/-- `const unsigned long SAMPLES_PER_TEST = 100;` (main.cpp line 20). -/
def SAMPLES_PER_TEST : ℕ := 100

/-- Modulus of `unsigned long` arithmetic on the Arduino Due (32-bit). -/
def ULONG_MOD : ℕ := 2 ^ 32

/-- Enumerator value of `PATTERN_SINE` (first variant of `enum Pattern`,
main.cpp lines 28-33).  The C++ enum is embedded by its integer value. -/
def PATTERN_SINE : ℕ := 0

/-- Enumerator value of `PATTERN_RAMP`. -/
def PATTERN_RAMP : ℕ := 1

/-- Enumerator value of `PATTERN_RANDOM_WALK`. -/
def PATTERN_RANDOM_WALK : ℕ := 2

/-- Enumerator value of `PATTERN_COUNT` (number of pattern variants). -/
def PATTERN_COUNT : ℕ := 3

/-- The set of values the Arduino library call `random(lo, hi)` can
return.  Per the Arduino language reference, `random(min, max)` returns a
long in `[min, max)`: the lower bound is inclusive and the upper bound is
*exclusive*.  (`random` is platform library code, not repository code.) -/
def randomRange (lo hi : ℤ) : Finset ℤ := Finset.Ico lo hi

/-- The mutable globals of the sketch (main.cpp lines 36-43):
`Pattern currentPattern = PATTERN_SINE; unsigned long testCount = 0;
float randomWalkValue = 50.0;`.  The C++ enum field is embedded as its
integer value so that the defensive `default:` branch of the `switch`
remains expressible. -/
structure SimState where
  currentPattern : ℕ
  testCount : ℕ
  randomWalkValue : ℝ

/-- The state the globals hold when the process starts (their C++
initialisers, main.cpp lines 36-43). -/
def initialState : SimState :=
  { currentPattern := PATTERN_SINE, testCount := 0, randomWalkValue := 50 }

/-- `float generateSample(unsigned long sampleIndex, unsigned long totalSamples)`
(main.cpp lines 48-84), embedded over `ℝ`.  The global state is passed and
returned explicitly; `d` is the value returned by the single `random(...)`
call executed by the branch taken (only one branch runs per invocation).
Returns the computed `value` together with the updated globals. -/
noncomputable def generateSample (st : SimState) (sampleIndex totalSamples : ℕ)
    (d : ℤ) : ℝ × SimState :=
  let t : ℝ := (sampleIndex : ℝ) / (totalSamples : ℝ)
  if st.currentPattern = PATTERN_SINE then
    -- case PATTERN_SINE: value = 50.0 + 45.0 * sin(t * 2.0 * PI); value += random(-500, 500) / 100.0;
    let angle : ℝ := t * 2 * Real.pi
    let value : ℝ := 50 + 45 * Real.sin angle + (d : ℝ) / 100
    (value, st)
  else if st.currentPattern = PATTERN_RAMP then
    -- case PATTERN_RAMP: value = t * 100.0; value += random(-200, 200) / 100.0;
    (t * 100 + (d : ℝ) / 100, st)
  else if st.currentPattern = PATTERN_RANDOM_WALK then
    -- case PATTERN_RANDOM_WALK: randomWalkValue += random(-200, 200) / 100.0;
    -- if (randomWalkValue < 0) randomWalkValue = 0;
    -- if (randomWalkValue > 100) randomWalkValue = 100;
    -- value = randomWalkValue;
    let w1 : ℝ := st.randomWalkValue + (d : ℝ) / 100
    let w2 : ℝ := if w1 < 0 then 0 else w1
    let w3 : ℝ := if w2 > 100 then 100 else w2
    (w3, { st with randomWalkValue := w3 })
  else
    -- default: value = 50.0;
    (50, st)

/-- The `switch` of `generateSample` falls into its `default:` branch
exactly when `currentPattern` is none of the three declared enumerators,
i.e. (embedding the enum by its integer value) when its value is at least
`PATTERN_COUNT`. -/
def takesDefaultBranch (st : SimState) : Prop :=
  PATTERN_COUNT ≤ st.currentPattern

instance (st : SimState) : Decidable (takesDefaultBranch st) := by
  unfold takesDefaultBranch; infer_instance

/-- The state of the globals right after the preamble of `runTest`
(main.cpp lines 90-96): `testCount++; randomWalkValue = 50.0;
currentPattern = (Pattern)(testCount % PATTERN_COUNT);`.
`testCount` is `unsigned long`, so the increment wraps modulo `2^32`. -/
def runStartState (st : SimState) : SimState :=
  let c := (st.testCount + 1) % ULONG_MOD
  { currentPattern := c % PATTERN_COUNT, testCount := c, randomWalkValue := 50 }

/-- The sample loop of `runTest` (main.cpp lines 98-110): starting from
state `st` at sample index `i`, run `fuel` more iterations, feeding sample
`j` the noise draw `draws j`.  Returns the final state and the list of
emitted values in emission order.  (Serial output, the LED write and
`delay` have no effect on the modelled state.) -/
noncomputable def runSamplesFrom (draws : ℕ → ℤ) (totalSamples : ℕ) :
    SimState → ℕ → ℕ → SimState × List ℝ
  | st, _, 0 => (st, [])
  | st, i, fuel + 1 =>
    let r := generateSample st i totalSamples (draws i)
    let rest := runSamplesFrom draws totalSamples r.2 (i + 1) fuel
    (rest.1, r.1 :: rest.2)

/-- `void runTest()` (main.cpp lines 89-116): increment the test counter,
reset the random-walk baseline, select the pattern, then emit
`SAMPLES_PER_TEST` samples.  Returns the final globals and the values
emitted, in order. -/
noncomputable def runTest (st : SimState) (draws : ℕ → ℤ) :
    SimState × List ℝ :=
  runSamplesFrom draws SAMPLES_PER_TEST (runStartState st) 0 SAMPLES_PER_TEST

/-- States of the globals reachable in a process lifetime: the initial
values, plus the result of any number of `loop()` iterations (each of
which calls `runTest` with some sequence of noise draws). -/
inductive Reachable : SimState → Prop
  | init : Reachable initialState
  | step (st : SimState) (draws : ℕ → ℤ) :
      Reachable st → Reachable (runTest st draws).1

/-- The globals after `n` iterations of `loop()` (main.cpp lines 148-154),
where iteration `k` calls `runTest` with noise draws `drawss k`. -/
noncomputable def stateAfterRuns (drawss : ℕ → ℕ → ℤ) : ℕ → SimState
  | 0 => initialState
  | n + 1 => (runTest (stateAfterRuns drawss n) (drawss n)).1

/-! ## Output formatting

Lines 102-104 of main.cpp emit each sample's value to both serial ports:
`Serial.println(value, 6); SerialUSB.println(value, 6);`.
`Print::println(double, int)` (Arduino core library, `Print.cpp`) prints
the number via `printFloat(value, 6)` and then appends a carriage return
and a line feed (`"\r\n"` — per the Arduino reference, `println` is
"followed by a carriage return character (ASCII 13, or '\r') and a newline
character (ASCII 10, or '\n')").

`printFloat(number, digits)` does, in order: `nan`/`inf`/overflow guards;
a `-` sign for negative numbers (continuing with the absolute value);
adds `rounding = 0.5 / 10^digits`; prints the truncated integer part; a
decimal point; then `digits` times: multiplies the remainder by 10,
prints its truncated integer value as one digit, and subtracts that digit.

We model the emitted value as an exact rational `x : ℚ` and carry the
working number of `printFloat` as an explicit integer fraction
`num / den` (unreduced), so the digit loop is exact integer arithmetic:
the digit extracted from remainder `num/den` is `(num * 10) / den` and
the new remainder is `(num * 10) % den / den`. -/

/-- The ASCII character of the decimal digit `d` (for `d ≤ 9`). -/
def digitChar (d : ℕ) : Char := Char.ofNat (48 + d)

/-- Decimal digit characters of a natural number, most significant first
(`Print::printNumber` with base 10); `fuel` bounds the recursion depth. -/
def natDecChars : ℕ → ℕ → List Char
  | 0, _ => []
  | fuel + 1, n =>
    if n < 10 then [digitChar n]
    else natDecChars fuel (n / 10) ++ [digitChar (n % 10)]

/-- Decimal representation of a natural number. -/
def natDec (n : ℕ) : List Char := natDecChars (n + 1) n

/-- The fractional-digit loop of `Print::printFloat`: extract `k` digits
from the remainder `num / den` (with `0 ≤ num % den < den` maintained by
`emod`).  Each step multiplies the remainder by 10, emits its integer
part as a digit, and keeps the new remainder. -/
def fracChars : ℕ → ℤ → ℤ → List Char
  | 0, _, _ => []
  | k + 1, num, den =>
    let n10 := num * 10
    digitChar (n10 / den).toNat :: fracChars k (n10 % den) den

/-- `Print::printFloat` after sign handling, applied to the nonnegative
working value `num / den` (which already includes the `+ 0.5/10^6`
rounding term): integer part, decimal point, then 6 fractional digits. -/
def printFloatBody (num den : ℤ) : List Char :=
  natDec (num / den).toNat ++ '.' :: fracChars 6 (num % den) den

/-- `Print::printFloat(x, 6)` for an exactly representable finite value
`x : ℚ`: overflow guards at `±4294967040`, a sign for negative values,
then the body on `|x| + 1/2000000` carried as the explicit fraction
`(|x|.num * 2000000 + |x|.den) / (|x|.den * 2000000)`.
(The `nan`/`inf` guards are vacuous over `ℚ`.) -/
def printFloat6 (x : ℚ) : List Char :=
  if 4294967040 < x then ['o', 'v', 'f']
  else if x < -4294967040 then ['o', 'v', 'f']
  else
    let ax : ℚ := if x < 0 then -x else x
    let num : ℤ := ax.num * 2000000 + (ax.den : ℤ)
    let den : ℤ := (ax.den : ℤ) * 2000000
    (if x < 0 then ['-'] else []) ++ printFloatBody num den

/-- `println(x, 6)`: the formatted number followed by `"\r\n"`. -/
def println6 (x : ℚ) : List Char := printFloat6 x ++ ['\r', '\n']

/-- Lines 102-104 of main.cpp: the byte streams the two output channels
(`Serial`, the programming port, and `SerialUSB`, the native USB port)
receive for one sample of value `x`. -/
def emitSample (x : ℚ) : List Char × List Char := (println6 x, println6 x)

/-! ## Helper lemmas about the sample generator -/

theorem generateSample_sine (st : SimState) (i N : ℕ) (d : ℤ)
    (h : st.currentPattern = PATTERN_SINE) :
    generateSample st i N d =
      (50 + 45 * Real.sin ((i : ℝ) / (N : ℝ) * 2 * Real.pi) + (d : ℝ) / 100, st) := by
  simp [generateSample, h]

theorem generateSample_ramp (st : SimState) (i N : ℕ) (d : ℤ)
    (h : st.currentPattern = PATTERN_RAMP) :
    generateSample st i N d = ((i : ℝ) / (N : ℝ) * 100 + (d : ℝ) / 100, st) := by
  simp [generateSample, h, PATTERN_SINE, PATTERN_RAMP]

theorem generateSample_default_eq (st : SimState) (i N : ℕ) (d : ℤ)
    (h : PATTERN_COUNT ≤ st.currentPattern) :
    generateSample st i N d = (50, st) := by
  have h0 : ¬ st.currentPattern = PATTERN_SINE := by
    simp only [PATTERN_COUNT] at h; simp only [PATTERN_SINE]; omega
  have h1 : ¬ st.currentPattern = PATTERN_RAMP := by
    simp only [PATTERN_COUNT] at h; simp only [PATTERN_RAMP]; omega
  have h2 : ¬ st.currentPattern = PATTERN_RANDOM_WALK := by
    simp only [PATTERN_COUNT] at h; simp only [PATTERN_RANDOM_WALK]; omega
  simp [generateSample, h0, h1, h2]

theorem generateSample_currentPattern (st : SimState) (i N : ℕ) (d : ℤ) :
    (generateSample st i N d).2.currentPattern = st.currentPattern := by
  simp only [generateSample]
  split_ifs <;> rfl

theorem generateSample_testCount (st : SimState) (i N : ℕ) (d : ℤ) :
    (generateSample st i N d).2.testCount = st.testCount := by
  simp only [generateSample]
  split_ifs <;> rfl

/-- The clamped random-walk sample: always in `[0, 100]`, and the value
stored back into `randomWalkValue` is the value returned. -/
theorem walk_sample_bounds (st : SimState) (i N : ℕ) (d : ℤ)
    (h : st.currentPattern = PATTERN_RANDOM_WALK) :
    0 ≤ (generateSample st i N d).1 ∧ (generateSample st i N d).1 ≤ 100 ∧
    (generateSample st i N d).2.randomWalkValue = (generateSample st i N d).1 := by
  simp only [generateSample, h, PATTERN_SINE, PATTERN_RAMP, PATTERN_RANDOM_WALK]
  norm_num
  split_ifs <;> constructor <;> linarith

theorem runSamplesFrom_state (draws : ℕ → ℤ) (N fuel : ℕ) :
    ∀ st i, (runSamplesFrom draws N st i fuel).1.currentPattern = st.currentPattern ∧
      (runSamplesFrom draws N st i fuel).1.testCount = st.testCount := by
  induction fuel with
  | zero => intro st i; exact ⟨rfl, rfl⟩
  | succ n ih =>
    intro st i
    simp only [runSamplesFrom]
    exact ⟨((ih _ _).1).trans (generateSample_currentPattern st i N (draws i)),
      ((ih _ _).2).trans (generateSample_testCount st i N (draws i))⟩

theorem runSamplesFrom_walk_mem (draws : ℕ → ℤ) (N fuel : ℕ) :
    ∀ st i, st.currentPattern = PATTERN_RANDOM_WALK →
      ∀ v ∈ (runSamplesFrom draws N st i fuel).2, 0 ≤ v ∧ v ≤ 100 := by
  induction fuel with
  | zero => intro st i _ v hv; simp [runSamplesFrom] at hv
  | succ n ih =>
    intro st i h v hv
    simp only [runSamplesFrom, List.mem_cons] at hv
    rcases hv with hv | hv
    · have hb := walk_sample_bounds st i N (draws i) h
      exact hv ▸ ⟨hb.1, hb.2.1⟩
    · have hpat : (generateSample st i N (draws i)).2.currentPattern
          = PATTERN_RANDOM_WALK :=
        (generateSample_currentPattern st i N (draws i)).trans h
      exact ih _ _ hpat v hv

theorem runTest_testCount (st : SimState) (draws : ℕ → ℤ) :
    (runTest st draws).1.testCount = (st.testCount + 1) % ULONG_MOD := by
  unfold runTest
  exact (runSamplesFrom_state draws SAMPLES_PER_TEST SAMPLES_PER_TEST _ _).2

theorem runTest_currentPattern (st : SimState) (draws : ℕ → ℤ) :
    (runTest st draws).1.currentPattern
      = ((st.testCount + 1) % ULONG_MOD) % PATTERN_COUNT := by
  unfold runTest
  exact (runSamplesFrom_state draws SAMPLES_PER_TEST SAMPLES_PER_TEST _ _).1

theorem stateAfterRuns_testCount (drawss : ℕ → ℕ → ℤ) :
    ∀ n, (stateAfterRuns drawss n).testCount = n % ULONG_MOD := by
  intro n
  induction n with
  | zero => simp [stateAfterRuns, initialState]
  | succ m ih =>
    simp only [stateAfterRuns, runTest_testCount, ih, ULONG_MOD]
    omega

theorem stateAfterRuns_pattern (drawss : ℕ → ℕ → ℤ) (n : ℕ) :
    (stateAfterRuns drawss (n + 1)).currentPattern
      = ((n + 1) % ULONG_MOD) % PATTERN_COUNT := by
  simp only [stateAfterRuns, runTest_currentPattern, stateAfterRuns_testCount]
  simp only [ULONG_MOD, PATTERN_COUNT]
  omega

/-! ## Helper lemmas about output formatting -/

theorem digitChar_isDigit (d : ℕ) (h : d ≤ 9) : (digitChar d).isDigit = true := by
  interval_cases d <;> decide

theorem natDecChars_digits (fuel : ℕ) :
    ∀ n, ∀ c ∈ natDecChars fuel n, c.isDigit = true := by
  induction fuel with
  | zero => intro n c hc; simp [natDecChars] at hc
  | succ m ih =>
    intro n c hc
    by_cases hn : n < 10
    · rw [natDecChars, if_pos hn] at hc
      simp only [List.mem_singleton] at hc
      exact hc ▸ digitChar_isDigit n (by omega)
    · rw [natDecChars, if_neg hn] at hc
      rcases List.mem_append.mp hc with h1 | h1
      · exact ih _ c h1
      · simp only [List.mem_singleton] at h1
        exact h1 ▸ digitChar_isDigit _ (by omega)

theorem fracChars_length (k : ℕ) : ∀ num den, (fracChars k num den).length = k := by
  induction k with
  | zero => intro num den; rfl
  | succ m ih => intro num den; simp [fracChars, ih]

theorem fracChars_digits (k : ℕ) :
    ∀ num den : ℤ, 0 < den → 0 ≤ num → num < den →
      ∀ c ∈ fracChars k num den, c.isDigit = true := by
  induction k with
  | zero => intro num den _ _ _ c hc; simp [fracChars] at hc
  | succ m ih =>
    intro num den hden hnum hlt c hc
    simp only [fracChars, List.mem_cons] at hc
    rcases hc with hc | hc
    · have h1 : (0 : ℤ) ≤ num * 10 / den := Int.ediv_nonneg (by linarith) (by linarith)
      have h2 : num * 10 / den < 10 := by
        rw [Int.ediv_lt_iff_lt_mul hden]; linarith
      exact hc ▸ digitChar_isDigit _ (by omega)
    · exact ih _ _ hden (Int.emod_nonneg _ (by linarith)) (Int.emod_lt_of_pos _ hden) c hc

theorem printFloatBody_shape (num den : ℤ) (hden : 0 < den) :
    ∃ fpart, printFloatBody num den = natDec (num / den).toNat ++ '.' :: fpart ∧
      fpart.length = 6 ∧ ∀ c ∈ fpart, c.isDigit = true :=
  ⟨fracChars 6 (num % den) den, rfl, fracChars_length 6 _ _,
   fracChars_digits 6 _ _ hden (Int.emod_nonneg _ hden.ne') (Int.emod_lt_of_pos _ hden)⟩

/-! ## The claims -/

/-- C3 (counterexample): the byte stream emitted for a sample is *not*
"ASCII value text + `'\n'` with no other framing": `println` appends a
carriage return before the line feed, so the value `50.0` is emitted as
`"50.000000\r\n"`, not `"50.000000\n"`. -/
theorem emit_crlf_counterexample :
    emitSample 50 = ("50.000000\r\n".data, "50.000000\r\n".data) ∧
    (emitSample 50).1 ≠ "50.000000\n".data := by
  constructor
  · decide
  · decide

/-- C3 (amended): for every sample emitted, the same value is written to
both output channels, formatted as ASCII decimal text with exactly 6
digits after the decimal point, terminated by a carriage return and a
newline (`"\r\n"`), with no other framing (for values inside `printFloat`'s
overflow guard; the sign/integer prefix consists of digits and `'-'`). -/
theorem emit_format (x : ℚ) (hlo : -4294967040 ≤ x) (hhi : x ≤ 4294967040) :
    (emitSample x).1 = (emitSample x).2 ∧
    ∃ ipart fpart, (emitSample x).1 = ipart ++ '.' :: (fpart ++ ['\r', '\n']) ∧
      fpart.length = 6 ∧ (∀ c ∈ fpart, c.isDigit = true) ∧
      ∀ c ∈ ipart, c.isDigit = true ∨ c = '-' := by
  refine ⟨rfl, ?_⟩
  have hx1 : ¬ (4294967040 : ℚ) < x := not_lt.mpr hhi
  have hx2 : ¬ x < (-4294967040 : ℚ) := not_lt.mpr hlo
  set ax : ℚ := if x < 0 then -x else x with hax
  have hpf : printFloat6 x = (if x < 0 then ['-'] else []) ++
      printFloatBody (ax.num * 2000000 + (ax.den : ℤ)) ((ax.den : ℤ) * 2000000) := by
    simp only [printFloat6, hx1, hx2, if_false, hax]
  have hdenpos : (0 : ℤ) < (ax.den : ℤ) * 2000000 :=
    mul_pos (by exact_mod_cast ax.pos) (by norm_num)
  obtain ⟨fpart, hbody, hlen, hdig⟩ :=
    printFloatBody_shape (ax.num * 2000000 + (ax.den : ℤ)) ((ax.den : ℤ) * 2000000) hdenpos
  refine ⟨(if x < 0 then ['-'] else []) ++
      natDec (((ax.num * 2000000 + (ax.den : ℤ)) / ((ax.den : ℤ) * 2000000)).toNat),
    fpart, ?_, hlen, hdig, ?_⟩
  · show println6 x = _
    rw [println6, hpf, hbody]
    simp [List.append_assoc]
  · intro c hc
    rcases List.mem_append.mp hc with h1 | h1
    · by_cases hneg : x < 0
      · rw [if_pos hneg] at h1
        simp only [List.mem_singleton] at h1
        exact Or.inr h1
      · rw [if_neg hneg] at h1
        simp at h1
    · exact Or.inl (natDecChars_digits _ _ c h1)

/-- C3 (witness): the amended format theorem instantiated at the value 50. -/
theorem emit_format_witness :
    (emitSample 50).1 = (emitSample 50).2 ∧
    ∃ ipart fpart, (emitSample 50).1 = ipart ++ '.' :: (fpart ++ ['\r', '\n']) ∧
      fpart.length = 6 ∧ (∀ c ∈ fpart, c.isDigit = true) ∧
      ∀ c ∈ ipart, c.isDigit = true ∨ c = '-' :=
  emit_format 50 (by norm_num) (by norm_num)

/-- C4 (counterexample): the endpoint draws the claim asserts are
attainable are not: `random(-500, 500)` never returns `500` and
`random(-200, 200)` never returns `200` (the Arduino `random` upper bound
is exclusive), so the attainable draw sets are not the closed intervals
`[-500, 500]` and `[-200, 200]`. -/
theorem noise_draw_endpoint_counterexample :
    ((500 : ℤ) ∉ randomRange (-500) 500 ∧
      randomRange (-500) 500 ≠ Finset.Icc (-500) 500) ∧
    ((200 : ℤ) ∉ randomRange (-200) 200 ∧
      randomRange (-200) 200 ≠ Finset.Icc (-200) 200) := by
  refine ⟨⟨?_, ?_⟩, ?_, ?_⟩
  · simp [randomRange]
  · intro h
    have h5 : (500 : ℤ) ∈ Finset.Icc (-500 : ℤ) 500 := by simp
    rw [← h] at h5
    simp [randomRange] at h5
  · simp [randomRange]
  · intro h
    have h2 : (200 : ℤ) ∈ Finset.Icc (-200 : ℤ) 200 := by simp
    rw [← h] at h2
    simp [randomRange] at h2

/-- C4 (amended): every noise draw is a discrete uniform integer draw over
hundredths on a half-open interval: the Sine-pattern draw `random(-500, 500)`
lies in `[-500, 499]` (noise in `[-5, 4.99]` after scaling by `1/100`), and
the Ramp/RandomWalk draw `random(-200, 200)` lies in `[-200, 199]` (noise
in `[-2, 1.99]`). -/
theorem noise_draw_ranges :
    randomRange (-500) 500 = Finset.Icc (-500) 499 ∧
    randomRange (-200) 200 = Finset.Icc (-200) 199 ∧
    (∀ d ∈ randomRange (-500) 500,
      (-5 : ℝ) ≤ (d : ℝ) / 100 ∧ (d : ℝ) / 100 ≤ 499 / 100) ∧
    (∀ d ∈ randomRange (-200) 200,
      (-2 : ℝ) ≤ (d : ℝ) / 100 ∧ (d : ℝ) / 100 ≤ 199 / 100) := by
  refine ⟨?_, ?_, ?_, ?_⟩
  · ext d; simp [randomRange]; omega
  · ext d; simp [randomRange]; omega
  · intro d hd
    simp only [randomRange, Finset.mem_Ico] at hd
    have hd1 : (-500 : ℝ) ≤ (d : ℝ) := by exact_mod_cast hd.1
    have hd2 : (d : ℝ) ≤ 499 := by
      have : d ≤ 499 := by omega
      exact_mod_cast this
    constructor <;> linarith
  · intro d hd
    simp only [randomRange, Finset.mem_Ico] at hd
    have hd1 : (-200 : ℝ) ≤ (d : ℝ) := by exact_mod_cast hd.1
    have hd2 : (d : ℝ) ≤ 199 := by
      have : d ≤ 199 := by omega
      exact_mod_cast this
    constructor <;> linarith

/-- C4 (witness): the amended range theorem instantiated at the draw
`-500` of the Sine pattern and `199` of the Ramp/RandomWalk patterns. -/
theorem noise_draw_ranges_witness :
    ((-5 : ℝ) ≤ ((-500 : ℤ) : ℝ) / 100 ∧ ((-500 : ℤ) : ℝ) / 100 ≤ 499 / 100) ∧
    ((-2 : ℝ) ≤ ((199 : ℤ) : ℝ) / 100 ∧ ((199 : ℤ) : ℝ) / 100 ≤ 199 / 100) :=
  ⟨noise_draw_ranges.2.2.1 (-500) (by simp [randomRange]),
   noise_draw_ranges.2.2.2 199 (by simp [randomRange])⟩

/-- C1: under the RandomWalk pattern the value returned by the sample
generator, and the `randomWalkValue` stored after the sample, lie in
`[0, 100]` inclusive — for any prior state and any noise draw (the clamp
runs before the value is stored and returned) — and consequently every
value emitted by a RandomWalk run lies in `[0, 100]`, for every run and
every sequence of noise draws. -/
theorem randomWalk_clamped :
    (∀ st i N d, st.currentPattern = PATTERN_RANDOM_WALK →
      0 ≤ (generateSample st i N d).1 ∧ (generateSample st i N d).1 ≤ 100 ∧
      (generateSample st i N d).2.randomWalkValue = (generateSample st i N d).1) ∧
    (∀ st draws, (runStartState st).currentPattern = PATTERN_RANDOM_WALK →
      ∀ v ∈ (runTest st draws).2, 0 ≤ v ∧ v ≤ 100) := by
  constructor
  · exact walk_sample_bounds
  · intro st draws hpat v hv
    exact runSamplesFrom_walk_mem draws SAMPLES_PER_TEST SAMPLES_PER_TEST
      (runStartState st) 0 hpat v hv

/-- C1 (witness): the clamp theorem at a concrete RandomWalk state and a
concrete RandomWalk run (test counter 1, so the next run selects
pattern `2 % 3 = RandomWalk`). -/
theorem randomWalk_clamped_witness :
    (0 ≤ (generateSample ⟨PATTERN_RANDOM_WALK, 1, 50⟩ 0 100 (-777)).1 ∧
      (generateSample ⟨PATTERN_RANDOM_WALK, 1, 50⟩ 0 100 (-777)).1 ≤ 100 ∧
      (generateSample ⟨PATTERN_RANDOM_WALK, 1, 50⟩ 0 100 (-777)).2.randomWalkValue
        = (generateSample ⟨PATTERN_RANDOM_WALK, 1, 50⟩ 0 100 (-777)).1) ∧
    ∀ v ∈ (runTest ⟨PATTERN_SINE, 1, 50⟩ (fun _ => -200)).2, 0 ≤ v ∧ v ≤ 100 :=
  ⟨randomWalk_clamped.1 ⟨PATTERN_RANDOM_WALK, 1, 50⟩ 0 100 (-777) rfl,
   randomWalk_clamped.2 ⟨PATTERN_SINE, 1, 50⟩ (fun _ => -200) (by decide)⟩

/-- C2: each run increments the (32-bit) run counter first and then
selects `pattern = counter mod 3`; starting from the initial state,
run 1 uses Ramp, run 2 RandomWalk, run 3 Sine, run 4 Ramp again, and the
first run in process lifetime never uses the 0th variant (Sine); the
selection is periodic with period 3 (below the 32-bit counter wrap). -/
theorem pattern_round_robin :
    (∀ st, (runStartState st).currentPattern
        = ((st.testCount + 1) % ULONG_MOD) % PATTERN_COUNT) ∧
    (∀ st draws, (runTest st draws).1.currentPattern
        = ((st.testCount + 1) % ULONG_MOD) % PATTERN_COUNT) ∧
    (∀ drawss, (stateAfterRuns drawss 1).currentPattern = PATTERN_RAMP ∧
      (stateAfterRuns drawss 2).currentPattern = PATTERN_RANDOM_WALK ∧
      (stateAfterRuns drawss 3).currentPattern = PATTERN_SINE ∧
      (stateAfterRuns drawss 4).currentPattern = PATTERN_RAMP ∧
      (stateAfterRuns drawss 1).currentPattern ≠ PATTERN_SINE) ∧
    (∀ drawss n, n + 3 < ULONG_MOD →
      (stateAfterRuns drawss (n + 3)).currentPattern
        = (stateAfterRuns drawss n).currentPattern) := by
  refine ⟨fun st => rfl, runTest_currentPattern, ?_, ?_⟩
  · intro drawss
    have h1 := stateAfterRuns_pattern drawss 0
    have h2 := stateAfterRuns_pattern drawss 1
    have h3 := stateAfterRuns_pattern drawss 2
    have h4 := stateAfterRuns_pattern drawss 3
    norm_num [ULONG_MOD, PATTERN_COUNT] at h1 h2 h3 h4
    refine ⟨h1.trans rfl, h2.trans rfl, h3.trans rfl, h4.trans rfl, ?_⟩
    rw [h1]
    simp [PATTERN_RAMP, PATTERN_SINE]
  · intro drawss n hn
    match n with
    | 0 =>
      have h3 := stateAfterRuns_pattern drawss 2
      norm_num [ULONG_MOD, PATTERN_COUNT] at h3
      exact h3.trans rfl
    | m + 1 =>
      rw [stateAfterRuns_pattern drawss (m + 3), stateAfterRuns_pattern drawss m]
      simp only [ULONG_MOD, PATTERN_COUNT] at hn ⊢
      omega

/-- C2 (witness): the selection formula at the initial state, and the
concrete pattern of run 1. -/
theorem pattern_round_robin_witness :
    (runStartState initialState).currentPattern
        = ((initialState.testCount + 1) % ULONG_MOD) % PATTERN_COUNT ∧
    (stateAfterRuns (fun _ _ => -200) 1).currentPattern = PATTERN_RAMP ∧
    (stateAfterRuns (fun _ _ => -200) 1).currentPattern ≠ PATTERN_SINE :=
  ⟨pattern_round_robin.1 initialState,
   (pattern_round_robin.2.2.1 (fun _ _ => -200)).1,
   (pattern_round_robin.2.2.1 (fun _ _ => -200)).2.2.2.2⟩

/-- C5: under the Sine pattern the generated value is exactly
`50 + 45*sin(2π i/N)` plus the scaled noise draw — no clamping is applied —
and the pre-noise part lies in `[5, 95]`. -/
theorem sine_pre_noise (st : SimState) (i N : ℕ) (d : ℤ)
    (_hN : 0 < N) (_hi : i < N) (h : st.currentPattern = PATTERN_SINE) :
    (generateSample st i N d).1
        = (50 + 45 * Real.sin (2 * Real.pi * i / N)) + (d : ℝ) / 100 ∧
    5 ≤ 50 + 45 * Real.sin (2 * Real.pi * i / N) ∧
    50 + 45 * Real.sin (2 * Real.pi * i / N) ≤ 95 := by
  have harg : (i : ℝ) / (N : ℝ) * 2 * Real.pi = 2 * Real.pi * i / N := by ring
  refine ⟨?_, ?_, ?_⟩
  · rw [generateSample_sine st i N d h, harg]
  · linarith [Real.neg_one_le_sin (2 * Real.pi * i / N)]
  · linarith [Real.sin_le_one (2 * Real.pi * i / N)]

/-- C5 (witness): the Sine formula theorem at `i = 0`, `N = 100`, zero
noise, from the initial state (whose pattern is Sine). -/
theorem sine_pre_noise_witness :
    (generateSample initialState 0 100 0).1
        = (50 + 45 * Real.sin (2 * Real.pi * 0 / 100)) + ((0 : ℤ) : ℝ) / 100 ∧
    5 ≤ 50 + 45 * Real.sin (2 * Real.pi * 0 / 100) ∧
    50 + 45 * Real.sin (2 * Real.pi * 0 / 100) ≤ 95 := by
  have := sine_pre_noise initialState 0 100 0 (by norm_num) (by norm_num) rfl
  simpa using this

/-- C6: under the Ramp pattern the generated value is exactly `100*i/N`
plus the scaled noise draw; the pre-noise value is monotonically
non-decreasing in `i`, equals 0 at `i = 0`, and is strictly below 100 at
`i = N - 1`. -/
theorem ramp_pre_noise (st : SimState) (N : ℕ) (d : ℤ)
    (hN : 0 < N) (h : st.currentPattern = PATTERN_RAMP) :
    (∀ i, (generateSample st i N d).1 = 100 * (i : ℝ) / N + (d : ℝ) / 100) ∧
    (∀ i j : ℕ, i ≤ j → 100 * (i : ℝ) / N ≤ 100 * (j : ℝ) / N) ∧
    100 * ((0 : ℕ) : ℝ) / N = 0 ∧
    100 * ((N - 1 : ℕ) : ℝ) / N < 100 := by
  have hN' : (0 : ℝ) < N := by exact_mod_cast hN
  refine ⟨?_, ?_, ?_, ?_⟩
  · intro i; rw [generateSample_ramp st i N d h]; ring
  · intro i j hij
    have hij' : (i : ℝ) ≤ j := by exact_mod_cast hij
    gcongr
  · simp
  · rw [div_lt_iff₀ hN']
    have hlt : ((N - 1 : ℕ) : ℝ) < N := by
      exact_mod_cast Nat.sub_lt hN one_pos
    nlinarith

/-- C6 (witness): the Ramp theorem at `N = 100` from a Ramp-pattern
state, instantiated at `i = 3 ≤ 7 = j`. -/
theorem ramp_pre_noise_witness :
    (generateSample ⟨PATTERN_RAMP, 1, 50⟩ 3 100 0).1
        = 100 * ((3 : ℕ) : ℝ) / 100 + ((0 : ℤ) : ℝ) / 100 ∧
    100 * ((3 : ℕ) : ℝ) / 100 ≤ 100 * ((7 : ℕ) : ℝ) / 100 :=
  ⟨(ramp_pre_noise ⟨PATTERN_RAMP, 1, 50⟩ 100 0 (by norm_num) rfl).1 3,
   (ramp_pre_noise ⟨PATTERN_RAMP, 1, 50⟩ 100 0 (by norm_num) rfl).2.1 3 7 (by norm_num)⟩

/-- C7: at the start of every run — before any sample is generated —
`randomWalkValue` is reset to exactly 50, whatever its previous value and
whatever pattern either run uses; consequently a run's entire behaviour is
independent of the incoming `randomWalkValue`. -/
theorem randomWalk_reset :
    (∀ st, (runStartState st).randomWalkValue = 50) ∧
    (∀ st w draws,
      runTest { st with randomWalkValue := w } draws = runTest st draws) :=
  ⟨fun _ => rfl, fun _ _ _ => rfl⟩

/-- C7 (witness): the reset theorem at a drifted RandomWalk state. -/
theorem randomWalk_reset_witness :
    (runStartState ⟨PATTERN_RANDOM_WALK, 7, 99⟩).randomWalkValue = 50 ∧
    runTest { initialState with randomWalkValue := 99 } (fun _ => 0)
      = runTest initialState (fun _ => 0) :=
  ⟨randomWalk_reset.1 ⟨PATTERN_RANDOM_WALK, 7, 99⟩,
   randomWalk_reset.2 initialState 99 (fun _ => 0)⟩

/-- C8: with `N = 100` samples under the Sine pattern, at sample index
`i = 25` the pre-noise value is exactly `95 = 50 + 45*sin(π/2)`: the
generated value is `95` plus the scaled noise draw. -/
theorem sine_quarter_exact (st : SimState) (d : ℤ)
    (h : st.currentPattern = PATTERN_SINE) :
    (generateSample st 25 100 d).1 = 95 + (d : ℝ) / 100 := by
  rw [generateSample_sine st 25 100 d h]
  have harg : ((25 : ℕ) : ℝ) / ((100 : ℕ) : ℝ) * 2 * Real.pi = Real.pi / 2 := by
    push_cast
    ring
  rw [harg, Real.sin_pi_div_two]
  norm_num

/-- C8 (witness): the exact-peak theorem at the initial state with zero
noise. -/
theorem sine_quarter_exact_witness :
    (generateSample initialState 25 100 0).1 = 95 + ((0 : ℤ) : ℝ) / 100 :=
  sine_quarter_exact initialState 0 rfl

/-- C9: generating a sample under the Sine, Ramp or unknown-default
pattern leaves the persistent state entirely unchanged; whatever the
pattern, `testCount` and `currentPattern` are never written by the sample
generator, so RandomWalk mutates only `randomWalkValue`. -/
theorem generator_frame (st : SimState) (i N : ℕ) (d : ℤ) :
    (st.currentPattern ≠ PATTERN_RANDOM_WALK → (generateSample st i N d).2 = st) ∧
    (generateSample st i N d).2.currentPattern = st.currentPattern ∧
    (generateSample st i N d).2.testCount = st.testCount := by
  refine ⟨?_, generateSample_currentPattern st i N d, generateSample_testCount st i N d⟩
  intro hne
  by_cases h1 : st.currentPattern = PATTERN_SINE
  · rw [generateSample_sine st i N d h1]
  · by_cases h2 : st.currentPattern = PATTERN_RAMP
    · rw [generateSample_ramp st i N d h2]
    · have h3 : PATTERN_COUNT ≤ st.currentPattern := by
        simp only [PATTERN_SINE, PATTERN_RAMP, PATTERN_RANDOM_WALK,
          PATTERN_COUNT] at h1 h2 hne ⊢
        omega
      rw [generateSample_default_eq st i N d h3]

/-- C9 (witness): the frame theorem at a concrete Sine-pattern state. -/
theorem generator_frame_witness :
    (generateSample ⟨PATTERN_SINE, 0, 50⟩ 0 100 5).2 = ⟨PATTERN_SINE, 0, 50⟩ ∧
    (generateSample ⟨PATTERN_SINE, 0, 50⟩ 0 100 5).2.testCount
      = (⟨PATTERN_SINE, 0, 50⟩ : SimState).testCount :=
  ⟨(generator_frame ⟨PATTERN_SINE, 0, 50⟩ 0 100 5).1 (by decide),
   (generator_frame ⟨PATTERN_SINE, 0, 50⟩ 0 100 5).2.2⟩

/-- C10: `currentPattern` starts at Sine, every run assigns it
`testCount mod 3`, and in every reachable state (and at every point inside
a run's sample loop) its value is below `PATTERN_COUNT`, so the defensive
`default:` branch of the generator (which returns the constant 50 and is
taken exactly when the value is at least `PATTERN_COUNT`) is never
executed. -/
theorem pattern_in_range :
    initialState.currentPattern = PATTERN_SINE ∧
    (∀ st draws, (runTest st draws).1.currentPattern
        = ((st.testCount + 1) % ULONG_MOD) % PATTERN_COUNT) ∧
    (∀ st i N d, takesDefaultBranch st → generateSample st i N d = (50, st)) ∧
    (∀ st, Reachable st → st.currentPattern < PATTERN_COUNT ∧ ¬ takesDefaultBranch st) ∧
    (∀ st draws k, ¬ takesDefaultBranch
        (runSamplesFrom draws SAMPLES_PER_TEST (runStartState st) 0 k).1) := by
  refine ⟨rfl, runTest_currentPattern, ?_, ?_, ?_⟩
  · intro st i N d hd
    exact generateSample_default_eq st i N d hd
  · intro st h
    induction h with
    | init =>
      constructor
      · decide
      · intro hd
        simp [takesDefaultBranch, initialState, PATTERN_SINE, PATTERN_COUNT] at hd
    | step st' draws hr ih =>
      rw [runTest_currentPattern]
      constructor
      · exact Nat.mod_lt _ (by norm_num [PATTERN_COUNT])
      · simp only [takesDefaultBranch, runTest_currentPattern]
        have := Nat.mod_lt ((st'.testCount + 1) % ULONG_MOD) (show 0 < PATTERN_COUNT by norm_num [PATTERN_COUNT])
        omega
  · intro st draws k
    have hpat := (runSamplesFrom_state draws SAMPLES_PER_TEST k (runStartState st) 0).1
    simp only [takesDefaultBranch, hpat]
    have hmod := Nat.mod_lt ((st.testCount + 1) % ULONG_MOD)
      (show 0 < PATTERN_COUNT by norm_num [PATTERN_COUNT])
    simp only [runStartState]
    omega

/-- C10 (witness): the invariant at the initial state and after one
concrete run. -/
theorem pattern_in_range_witness :
    (initialState.currentPattern < PATTERN_COUNT ∧ ¬ takesDefaultBranch initialState) ∧
    ((runTest initialState (fun _ => 0)).1.currentPattern < PATTERN_COUNT ∧
      ¬ takesDefaultBranch (runTest initialState (fun _ => 0)).1) :=
  ⟨pattern_in_range.2.2.2.1 initialState Reachable.init,
   pattern_in_range.2.2.2.1 _ (Reachable.step initialState (fun _ => 0) Reachable.init)⟩

end UTM
